import Mathlib

/-!
Shallow embedding of the GitHub Repository Summarizer service (src/main.py)
and proofs about its specified properties.

Python strings are modelled as `List Char`; slicing `s[:n]` is `List.take n`,
`len` is `List.length`, string concatenation is `List.append`, and
`"\n".join(parts)` is `pyJoin ['\n'] parts`.  Machine integers are `Int`
(the budget counter in `build_context` can go negative, exactly as in the
Python code).  Fallible operations return `Option`.  Network calls are
abstracted as oracles/outcome values supplied to the embedded functions;
everything downstream of those outcomes is translated from the source.
-/

/-- ASCII whitespace recognised by Python's `str.strip()` and the regex
class `\s` (the embedding restricts itself to ASCII input, where Python's
set of whitespace code points is exactly these six characters). -/
def pyIsSpace (c : Char) : Bool :=
  c == ' ' || c == '\t' || c == '\n' || c == '\r' || c == '\x0b' || c == '\x0c'

/-- Left part of Python's `str.strip()`: drop leading whitespace. -/
def lstripWS (l : List Char) : List Char :=
  l.dropWhile pyIsSpace

/-- Right part of Python's `str.strip()`: drop trailing whitespace. -/
def rstripWS (l : List Char) : List Char :=
  (l.reverse.dropWhile pyIsSpace).reverse

/-- Python's `str.strip()` (no arguments): trim whitespace on both ends. -/
def pyStrip (l : List Char) : List Char :=
  rstripWS (lstripWS l)

/-- Python's `sep.join(parts)`. -/
def pyJoin (sep : List Char) : List (List Char) → List Char
  | [] => []
  | [x] => x
  | x :: y :: rest => x ++ sep ++ pyJoin sep (y :: rest)

/-- Consume an exact literal from the front of the input, returning the
remainder; `none` when the input does not start with the literal.  Used to
model the literal parts of the anchored regex in `parse_github_url`. -/
def chompLit : List Char → List Char → Option (List Char)
  | [], s => some s
  | _ :: _, [] => none
  | p :: ps, c :: cs => if c = p then chompLit ps cs else none

/-- The character class `[^/?\s#]` from the repo-segment group of the URL
regex, negated: `true` when `c` stops the repo run. -/
def urlStopChar (c : Char) : Bool :=
  c == '/' || c == '?' || c == '#' || pyIsSpace c

/-- Python's `repo.rstrip("/")`: drop all trailing slashes. -/
def rstripSlash (r : List Char) : List Char :=
  (r.reverse.dropWhile (fun c => c == '/')).reverse

/-- Python's `repo.endswith(".git")`. -/
def endsWithDotGit (r : List Char) : Bool :=
  ".git".toList.reverse.isPrefixOf r.reverse

/-- Python's `repo[:-4]`-after-`endswith(".git")` step. -/
def stripDotGit (r : List Char) : List Char :=
  if endsWithDotGit r then r.take (r.length - 4) else r

/-- Embedding of `parse_github_url` (src/main.py lines 56-65).

The regex `https?://github\.com/([^/]+)/([^/?\s#]+)` is applied with
`re.match` (anchored at the start only) to `url.strip()`.  Greedy matching
of the two character-class groups is deterministic maximal munch here:
group 1 is the maximal run of non-`/` characters (nonempty), group 2 the
maximal run of characters outside `/?#` and whitespace (nonempty).  On a
match the function returns `(owner, repo.rstrip("/"))` with one trailing
`.git` stripped; otherwise it raises `ValueError`, modelled as `none`.
`chompOptS` is the `s?` of the scheme part (deterministic: with-`s` and
without-`s` continuations are mutually exclusive), and the literal `/`
between the two groups is consumed by `chompLit "/"`. -/
def chompOptS : List Char → List Char
  | 's' :: t => t
  | r => r

theorem chompOptS_s (t : List Char) : chompOptS ('s' :: t) = t := rfl

def parse_github_url (url : List Char) : Option (List Char × List Char) :=
  let s := pyStrip url
  match chompLit "http".toList s with
  | none => none
  | some r0 =>
    let r1 := chompOptS r0
    match chompLit "://github.com/".toList r1 with
    | none => none
    | some r2 =>
      let owner := r2.takeWhile (fun c => !(c == '/'))
      let rest := r2.dropWhile (fun c => !(c == '/'))
      if owner.isEmpty then none
      else
        match chompLit "/".toList rest with
        | none => none
        | some r3 =>
          let repo0 := r3.takeWhile (fun c => !(urlStopChar c))
          if repo0.isEmpty then none
          else some (owner, stripDotGit (rstripSlash repo0))

/-- Modelled from the spec: the input form named by the spec's §8 first
property and §4.1 contract — `https://github.com/OWNER/REPO` where owner
and repo are maximal nonempty runs of characters excluding `/`, whitespace,
`?`, `#`, followed optionally by a trailing slash and/or a query string or
fragment (a `.git` suffix sits inside the repo run).  Used only to compare
the spec's claimed domain with the code's actual acceptance. -/
def specUrlForm (url : List Char) : Bool :=
  match chompLit "https://github.com/".toList url with
  | none => false
  | some r =>
    let owner := r.takeWhile (fun c => !(urlStopChar c))
    let rest := r.dropWhile (fun c => !(urlStopChar c))
    if owner.isEmpty then false
    else
      match rest with
      | '/' :: r2 =>
        let repo := r2.takeWhile (fun c => !(urlStopChar c))
        let tail2 := r2.dropWhile (fun c => !(urlStopChar c))
        if repo.isEmpty then false
        else
          match tail2 with
          | [] => true
          | ['/'] => true
          | '?' :: _ => true
          | '#' :: _ => true
          | '/' :: '?' :: _ => true
          | '/' :: '#' :: _ => true
          | _ => false
      | _ => false

/-- The fixed priority-ordered list of manifest/README filenames
(src/main.py lines 18-29). -/
def PRIORITY_FILES : List (List Char) :=
  ["README.md".toList, "README.rst".toList, "README.txt".toList,
   "pyproject.toml".toList, "requirements.txt".toList, "package.json".toList,
   "Cargo.toml".toList, "go.mod".toList, "setup.py".toList, "setup.cfg".toList]

/-- Recognized source-file extensions (src/main.py lines 31-35). -/
def SOURCE_EXTENSIONS : List (List Char) :=
  [".py".toList, ".js".toList, ".ts".toList, ".go".toList, ".rs".toList,
   ".java".toList, ".rb".toList, ".cpp".toList, ".c".toList, ".cs".toList,
   ".swift".toList, ".kt".toList, ".scala".toList, ".php".toList,
   ".vue".toList, ".jsx".toList, ".tsx".toList]

/-- Conventional entry-point filenames tried first (src/main.py lines 38-46). -/
def SOURCE_ENTRY_POINTS : List (List Char) :=
  ["main.py".toList, "app.py".toList, "server.py".toList, "index.py".toList,
   "main.js".toList, "app.js".toList, "server.js".toList, "index.js".toList,
   "main.ts".toList, "app.ts".toList, "server.ts".toList, "index.ts".toList,
   "main.go".toList, "main.rs".toList, "main.java".toList,
   "main.rb".toList, "app.rb".toList]

/-- The context character budget `MAX_CONTENT_CHARS` (src/main.py line 48). -/
def MAX_CONTENT_CHARS : Int := 12000

/-- Per-sampled-source-file cap `MAX_SOURCE_FILE_CHARS` (src/main.py line 49). -/
def MAX_SOURCE_FILE_CHARS : Nat := 3000

/-- The aggregate returned by `collect_repo_content` and consumed by
`build_context`: manifest files (name, content) in insertion order of the
Python dict, sampled source files likewise, and the directory listing. -/
structure RepoContent where
  files : List (List Char × List Char)
  source_files : List (List Char × List Char)
  directory : List (List Char)

/-- The per-manifest-file header `f"\n--- {name} ---\n"`. -/
def manifestHeader (name : List Char) : List Char :=
  "\n--- ".toList ++ name ++ " ---\n".toList

/-- The per-source-sample header `f"\n--- {name} (source sample) ---\n"`. -/
def sourceHeader (name : List Char) : List Char :=
  "\n--- ".toList ++ name ++ " (source sample) ---\n".toList

/-- The `ordered` list built in `build_context` (src/main.py lines 189-192):
manifest files found in `files`, in `PRIORITY_FILES` order. -/
def orderedManifest (files : List (List Char × List Char)) :
    List (List Char × List Char) :=
  PRIORITY_FILES.filterMap (fun n => (files.lookup n).map (fun c => (n, c)))

/-- The emit loop of `build_context` (src/main.py lines 194-203 for manifest
files and 206-215 for source samples; the two loops are textually identical
up to the header template `mk`).  Returns, in order, the appended parts, the
names of the files whose part was appended (instrumentation: each appended
part is `mk name ++ snippet`, so the name list merely mirrors the parts
list), and the final value of the running `budget` counter. -/
def emitFiles (mk : List Char → List Char) :
    List (List Char × List Char) → Int →
    List (List Char) × List (List Char) × Int
  | [], budget => ([], [], budget)
  | (name, content) :: rest, budget =>
    if budget ≤ 0 then ([], [], budget)
    else
      let header := mk name
      let available : Int := budget - (header.length : Int)
      if available ≤ 0 then ([], [], budget)
      else
        let snippet := content.take available.toNat
        let r := emitFiles mk rest (budget - (header.length : Int) - (snippet.length : Int))
        ((header ++ snippet) :: r.1, name :: r.2.1, r.2.2)

/-- The directory-listing block of `build_context` (src/main.py line 184):
`"Root directory entries:\n" + "\n".join(f"  {e}" for e in directory)`. -/
def dirBlock (data : RepoContent) : List Char :=
  "Root directory entries:\n".toList ++
    pyJoin ['\n'] (data.directory.map (fun e => ' ' :: ' ' :: e))

/-- Embedding of `build_context` (src/main.py lines 175-217), with the
budget `B` (initialised from `MAX_CONTENT_CHARS` in the source) exposed as
a parameter so that the spec's "configured budget" scenarios at other
revisions' values can be stated.  `build_context` below fixes it to
`MAX_CONTENT_CHARS`. -/
def buildContextB (budget : Int) (data : RepoContent) : List Char :=
  let dirParts : List (List Char) :=
    if data.directory.isEmpty then [] else [dirBlock data]
  let b1 : Int :=
    if data.directory.isEmpty then budget else budget - ((dirBlock data).length : Int)
  let m := emitFiles manifestHeader (orderedManifest data.files) b1
  let s := emitFiles sourceHeader data.source_files m.2.2
  pyJoin ['\n'] (dirParts ++ m.1 ++ s.1)

/-- `build_context` exactly as in the source: budget `MAX_CONTENT_CHARS`. -/
def build_context (data : RepoContent) : List Char :=
  buildContextB MAX_CONTENT_CHARS data

/-- A root-directory entry as recorded by `fetch_repo_metadata`
(src/main.py line 108): a name and the GitHub item type string. -/
structure DirEntry where
  name : List Char
  etype : List Char
deriving DecidableEq

/-- Lexicographic (code-point) comparison on strings, the order used by
Python's `sorted()` over the filename set in `pick_source_files`. -/
def lexLt : List Char → List Char → Bool
  | [], [] => false
  | [], _ :: _ => true
  | _ :: _, [] => false
  | a :: ta, b :: tb =>
    if a.toNat < b.toNat then true
    else if b.toNat < a.toNat then false
    else lexLt ta tb

/-- Insertion step of the sort modelling Python's `sorted()`. -/
def insSorted (x : List Char) : List (List Char) → List (List Char)
  | [] => [x]
  | y :: ys => if lexLt x y then x :: y :: ys else y :: insSorted x ys

/-- Sort modelling Python's `sorted()` on a set of distinct strings (any
comparison sort agrees on distinct keys under a total order). -/
def sortLex : List (List Char) → List (List Char)
  | [] => []
  | x :: xs => insSorted x (sortLex xs)

/-- `os.path.splitext(name)[1].lower()` for a bare filename: the extension
starts at the last dot, unless every character before that dot is itself a
dot (so ".bashrc" has no extension), and is lowercased. -/
def extOf (name : List Char) : List Char :=
  match name.reverse.findIdx? (fun c => c == '.') with
  | none => []
  | some j =>
    let i := name.length - 1 - j
    if (name.take i).any (fun c => !(c == '.')) then
      (name.drop i).map Char.toLower
    else []

/-- Embedding of `pick_source_files` (src/main.py lines 126-148): up to two
entry-point names present among the root files, else up to two files with a
recognized source extension in sorted order. -/
def pick_source_files (entries : List DirEntry) : List (List Char) :=
  let file_names :=
    ((entries.filter (fun e => e.etype == "file".toList)).map (fun e => e.name)).dedup
  let chosen := (SOURCE_ENTRY_POINTS.filter (fun n => file_names.contains n)).take 2
  if chosen.isEmpty then
    ((sortLex file_names).filter (fun n => SOURCE_EXTENSIONS.contains (extOf n))).take 2
  else chosen

/-- Outcome of the `GET /repos/{owner}/{repo}` metadata query as seen by
`fetch_repo_metadata` (src/main.py lines 84-95): either a transport failure
(`httpx.RequestError`, caught and swallowed), or a response with a status
code and, for JSON bodies, the optional `default_branch` field. -/
inductive BranchOutcome where
  | failure
  | response (status : Nat) (default_branch : Option (List Char))

/-- Branch-resolution step of `fetch_repo_metadata` (src/main.py lines
83-95): start from `"main"`; only a status-200 response overrides it with
`json().get("default_branch", "main")`.  Totality of this function is the
model of "this step never raises". -/
def resolve_default_branch : BranchOutcome → List Char
  | .failure => "main".toList
  | .response status db =>
    if status = 200 then db.getD "main".toList else "main".toList

/-- Outcome of the `GET /repos/{owner}/{repo}/contents/` listing query
(src/main.py lines 98-110): transport/JSON failure (both caught), or a
response carrying the parsed entries. -/
inductive ListingOutcome where
  | failure
  | response (status : Nat) (items : List DirEntry)

/-- Listing step of `fetch_repo_metadata`: entries only from a status-200
response, else the empty listing. -/
def resolve_entries : ListingOutcome → List DirEntry
  | .failure => []
  | .response status items => if status = 200 then items else []

/-- Return value of `fetch_repo_metadata` (src/main.py line 112). -/
structure RepoMeta where
  default_branch : List Char
  entries : List DirEntry

/-- Embedding of `fetch_repo_metadata` (src/main.py lines 76-112) over the
two query outcomes. -/
def fetch_repo_metadata (b : BranchOutcome) (l : ListingOutcome) : RepoMeta :=
  { default_branch := resolve_default_branch b, entries := resolve_entries l }

/-- Embedding of `collect_repo_content` (src/main.py lines 151-172).
`fetch` is the raw-file oracle for this request (owner, repo and the
resolved branch are fixed for the whole request, so the oracle is keyed by
path): `none` models `fetch_raw_file` returning `None` (transport failure
or non-200 status, src/main.py lines 115-123), `some c` models a 200
response with body `c`.  The `if content:` truthiness checks at lines 159
and 165 make the empty string indistinguishable from `None`. -/
def collect_repo_content (fetch : List Char → Option (List Char))
    (b : BranchOutcome) (l : ListingOutcome) : RepoContent :=
  let meta := fetch_repo_metadata b l
  { files := PRIORITY_FILES.filterMap (fun n =>
      match fetch n with
      | some c => if c.isEmpty then none else some (n, c)
      | none => none),
    source_files := (pick_source_files meta.entries).filterMap (fun p =>
      match fetch p with
      | some c => if c.isEmpty then none else some (p, c.take MAX_SOURCE_FILE_CHARS)
      | none => none),
    directory := (meta.entries.take 40).map (fun e => e.name) }

/-- Modelled from the spec (§4.2 Step C / the implicit claim's reading):
an oracle post-processor that records an empty 200 body as plain absence.
Used only to state that the code treats the two identically. -/
def treatEmptyAsAbsent (fetch : List Char → Option (List Char)) :
    List Char → Option (List Char) :=
  fun p => match fetch p with
    | some [] => none
    | r => r

/-- The literal triple-backtick fence marker. -/
def fence3 : List Char := "```".toList

/-- Embedding of `re.sub(r"^```(?:json)?\s*", "", text)` (src/main.py line
267): the pattern is anchored at the start, so at most the leading fence,
an optional `json` tag and the following whitespace run are removed. -/
def stripFenceOpen (t : List Char) : List Char :=
  if fence3.isPrefixOf t then
    (if "json".toList.isPrefixOf (t.drop 3) then (t.drop 3).drop 4
     else t.drop 3).dropWhile pyIsSpace
  else t

/-- Embedding of `re.sub(r"\s*```$", "", text)` (src/main.py line 268).
`$` matches at the end of the string or just before a final newline, and
the leftmost match starts at the maximal whitespace run preceding that
closing fence, so: a trailing ```` ``` ```` is removed together with the
whitespace run before it; a trailing ```` ```\n ```` likewise but the final
newline survives; otherwise the text is unchanged. -/
def stripFenceClose (t : List Char) : List Char :=
  if fence3.isPrefixOf t.reverse then
    ((t.reverse.drop 3).dropWhile pyIsSpace).reverse
  else if ('\n' :: fence3).isPrefixOf t.reverse then
    (((t.reverse.drop 4).dropWhile pyIsSpace).reverse) ++ ['\n']
  else t

/-- The response-unwrapping logic of `call_nebius` (src/main.py lines
264-268): `text = response...content.strip()` followed by the two fence
substitutions, producing the text handed to `json.loads`. -/
def unwrap_response (text : List Char) : List Char :=
  stripFenceClose (stripFenceOpen (pyStrip text))

/-- JSON values as produced by `json.loads`; objects keep their key/value
pairs in order (with duplicate keys, `json.loads` keeps the last binding,
which `dictGet` below reflects). -/
inductive JVal where
  | jnull
  | jbool (b : Bool)
  | jnum (n : Int)
  | jstr (s : List Char)
  | jarr (items : List JVal)
  | jobj (fields : List (List Char × JVal))

/-- Python `dict.get` on the dict `json.loads` builds from an object's
key/value list: the last binding of a duplicated key wins. -/
def dictGet (fields : List (List Char × JVal)) (key : List Char) : Option JVal :=
  (fields.reverse.find? (fun p => p.1 == key)).map (fun p => p.2)

/-- The three-field response body assembled by the handler (src/main.py
lines 304-308).  The fields hold whatever JSON values the provider object
carried (the code does not coerce their types). -/
structure SummaryResult where
  summary : JVal
  technologies : JVal
  struct : JVal

/-- The final step of a successful request (src/main.py lines 304-308):
`result.get("summary", "")`, `result.get("technologies", [])`,
`result.get("structure", "")`.  `result` is whatever `json.loads`
returned; on a non-object it has no `.get`, so the handler raises
`AttributeError`, modelled by `none`. -/
def extract_summary_result (j : JVal) : Option SummaryResult :=
  match j with
  | .jobj fields =>
    some { summary := (dictGet fields "summary".toList).getD (.jstr []),
           technologies := (dictGet fields "technologies".toList).getD (.jarr []),
           struct := (dictGet fields "structure".toList).getD (.jstr []) }
  | _ => none

/-- The ways `call_nebius` can come back to the handler (src/main.py lines
220-270 and the `except` arms at 295-302): the environment/credential and
provider errors, a JSON-decode failure of the unwrapped text, or the parsed
JSON value on success. -/
inductive NebOutcome where
  | envError
  | authError
  | connError
  | statusError
  | decodeError
  | ok (j : JVal)

/-- Handler responses: an error envelope with its HTTP status, a success
body, or an exception escaping the handler (no envelope at all). -/
inductive HandlerResp where
  | err (status : Nat) (msg : List Char)
  | ok (r : SummaryResult)
  | crash

/-- The 404 message literal (src/main.py line 288). -/
def msg404 : List Char := "Repository not found or is empty.".toList

/-- Embedding of the `/summarize` handler (src/main.py lines 273-308) over
the request URL and the three external outcomes of this request: the
raw-file oracle plus metadata outcomes (feeding `collect_repo_content`),
and the completion-provider outcome `neb` (consulted only if control
reaches the `call_nebius` stage).  Error messages other than the 404 one
are interpolated from exception text in the source and are modelled as
empty strings. -/
def summarize (url : List Char) (fetch : List Char → Option (List Char))
    (b : BranchOutcome) (l : ListingOutcome) (neb : NebOutcome) : HandlerResp :=
  match parse_github_url url with
  | none => .err 400 "Invalid GitHub URL...".toList
  | some _ =>
    let data := collect_repo_content fetch b l
    if data.files.isEmpty && data.directory.isEmpty && data.source_files.isEmpty then
      .err 404 msg404
    else
      match neb with
      | .envError => .err 500 []
      | .authError => .err 401 []
      | .connError => .err 502 []
      | .statusError => .err 502 []
      | .decodeError => .err 502 []
      | .ok j =>
        match extract_summary_result j with
        | some r => .ok r
        | none => .crash

/-! ### General helpers about the string model -/

/-- Total length of a list of parts. -/
def sumLen (xs : List (List Char)) : Nat :=
  (xs.map List.length).sum

theorem sumLen_append (a b : List (List Char)) :
    sumLen (a ++ b) = sumLen a + sumLen b := by
  simp [sumLen]

theorem pyJoin_newline_length : ∀ xs : List (List Char),
    (pyJoin ['\n'] xs).length ≤ sumLen xs + (xs.length - 1) := by
  intro xs
  induction xs with
  | nil => simp [pyJoin, sumLen]
  | cons x rest ih =>
    cases rest with
    | nil => simp [pyJoin, sumLen]
    | cons y t =>
      have ih' : (pyJoin ['\n'] (y :: t)).length ≤ sumLen (y :: t) + t.length := by
        simpa using ih
      have h1 : sumLen (x :: y :: t) = x.length + sumLen (y :: t) := by
        simp [sumLen]
      have h2 : (pyJoin ['\n'] (x :: y :: t)).length
          = x.length + 1 + (pyJoin ['\n'] (y :: t)).length := by
        simp [pyJoin]
        omega
      simp only [h2, h1, List.length_cons]
      omega

theorem chompLit_append (p r : List Char) : chompLit p (p ++ r) = some r := by
  induction p with
  | nil => rfl
  | cons a ps ih => simp [chompLit, ih]

theorem isPrefixOf_eq_iff : ∀ p l : List Char,
    p.isPrefixOf l = true ↔ ∃ t, l = p ++ t := by
  intro p
  induction p with
  | nil => intro l; simp [List.isPrefixOf]
  | cons a ps ih =>
    intro l
    cases l with
    | nil =>
      simp only [List.isPrefixOf]
      constructor
      · intro h; cases h
      · rintro ⟨t, ht⟩; cases ht
    | cons b t =>
      simp only [List.isPrefixOf, Bool.and_eq_true, beq_iff_eq, ih t]
      constructor
      · rintro ⟨rfl, w, rfl⟩; exact ⟨w, rfl⟩
      · rintro ⟨w, hw⟩
        injection hw with h1 h2
        exact ⟨h1.symm, w, h2⟩

theorem isPrefixOf_app_extend {p a : List Char} (b : List Char)
    (h : p.isPrefixOf a = true) : p.isPrefixOf (a ++ b) = true := by
  rcases (isPrefixOf_eq_iff p a).mp h with ⟨t, rfl⟩
  exact (isPrefixOf_eq_iff p _).mpr ⟨t ++ b, by simp⟩

theorem dropWhile_append_of_ne_nil {p : Char → Bool} {a : List Char}
    (b : List Char) (h : a.dropWhile p ≠ []) :
    (a ++ b).dropWhile p = a.dropWhile p ++ b := by
  rw [List.dropWhile_append]
  simp [List.isEmpty_iff, h]

theorem dropWhile_append_of_nil {p : Char → Bool} {a : List Char}
    (b : List Char) (h : a.dropWhile p = []) :
    (a ++ b).dropWhile p = b.dropWhile p := by
  rw [List.dropWhile_append]
  simp [List.isEmpty_iff, h]

theorem dropWhile_eq_self_of_forall {p : Char → Bool} {l : List Char}
    (h : ∀ c ∈ l, p c = false) : l.dropWhile p = l := by
  cases l with
  | nil => rfl
  | cons c t => simp [List.dropWhile, h c (by simp)]

theorem rstripWS_eq_self_of_forall {l : List Char}
    (h : ∀ c ∈ l, pyIsSpace c = false) : rstripWS l = l := by
  unfold rstripWS
  rw [dropWhile_eq_self_of_forall (fun c hc => h c (List.mem_reverse.mp hc))]
  exact List.reverse_reverse l

theorem rstripWS_append {l r : List Char} (h : rstripWS r ≠ []) :
    rstripWS (l ++ r) = l ++ rstripWS r := by
  unfold rstripWS at h ⊢
  have hr : r.reverse.dropWhile pyIsSpace ≠ [] := by
    intro hc; rw [hc] at h; exact h rfl
  rw [List.reverse_append, dropWhile_append_of_ne_nil _ hr, List.reverse_append,
    List.reverse_reverse]

theorem rstripWS_decomp (l : List Char) : ∃ w, l = rstripWS l ++ w := by
  refine ⟨(l.reverse.takeWhile pyIsSpace).reverse, ?_⟩
  unfold rstripWS
  rw [← List.reverse_append, List.takeWhile_append_dropWhile, List.reverse_reverse]

theorem takeWhile_app_stop {p : Char → Bool} : ∀ {l : List Char} {b : Char}
    {r : List Char}, (∀ c ∈ l, p c = true) → p b = false →
    (l ++ b :: r).takeWhile p = l ∧ (l ++ b :: r).dropWhile p = b :: r := by
  intro l
  induction l with
  | nil =>
    intro b r _ hb
    constructor
    · simp [List.takeWhile, hb]
    · simp [List.dropWhile, hb]
  | cons a t ih =>
    intro b r hl hb
    have ha : p a = true := hl a (by simp)
    have ht : ∀ c ∈ t, p c = true := fun c hc => hl c (by simp [hc])
    obtain ⟨h1, h2⟩ := @ih b r ht hb
    constructor
    · simp [List.takeWhile, ha, h1]
    · simp [List.dropWhile, ha, h2]

theorem takeWhile_eq_self_of_forall {p : Char → Bool} {l : List Char}
    (h : ∀ c ∈ l, p c = true) : l.takeWhile p = l :=
  List.takeWhile_eq_self_iff.mpr h

theorem mem_of_mem_dropWhile {p : Char → Bool} {l : List Char} {c : Char}
    (h : c ∈ l.dropWhile p) : c ∈ l :=
  (List.dropWhile_sublist p).subset h

theorem mem_rstripSlash {c : Char} {l : List Char} (h : c ∈ rstripSlash l) :
    c ∈ l := by
  unfold rstripSlash at h
  rw [List.mem_reverse] at h
  exact List.mem_reverse.mp (mem_of_mem_dropWhile h)

theorem mem_stripDotGit {c : Char} {l : List Char} (h : c ∈ stripDotGit l) :
    c ∈ l := by
  unfold stripDotGit at h
  split at h
  · exact List.take_subset _ _ h
  · exact h

/-! ### Properties of the emit loop of build_context -/

theorem emitFiles_nil (mk : List Char → List Char) (b : Int) :
    emitFiles mk [] b = ([], [], b) := rfl

theorem emitFiles_cons_nonpos (mk : List Char → List Char)
    (n c : List Char) (tl : List (List Char × List Char)) {b : Int}
    (h : b ≤ 0) : emitFiles mk ((n, c) :: tl) b = ([], [], b) := by
  simp [emitFiles, h]

theorem emitFiles_cons_stop (mk : List Char → List Char)
    (n c : List Char) (tl : List (List Char × List Char)) {b : Int}
    (h1 : ¬ b ≤ 0) (h2 : b - ((mk n).length : Int) ≤ 0) :
    emitFiles mk ((n, c) :: tl) b = ([], [], b) := by
  simp [emitFiles, h1, h2]

theorem emitFiles_cons_emit (mk : List Char → List Char)
    (n c : List Char) (tl : List (List Char × List Char)) {b : Int}
    (h1 : ¬ b ≤ 0) (h2 : ¬ (b - ((mk n).length : Int) ≤ 0)) :
    emitFiles mk ((n, c) :: tl) b =
      ((mk n ++ c.take (b - ((mk n).length : Int)).toNat) ::
          (emitFiles mk tl (b - ((mk n).length : Int) -
            ((c.take (b - ((mk n).length : Int)).toNat).length : Int))).1,
        n :: (emitFiles mk tl (b - ((mk n).length : Int) -
            ((c.take (b - ((mk n).length : Int)).toNat).length : Int))).2.1,
        (emitFiles mk tl (b - ((mk n).length : Int) -
            ((c.take (b - ((mk n).length : Int)).toNat).length : Int))).2.2) := by
  simp [emitFiles, h1, h2]

theorem emitFiles_nonpos (mk : List Char → List Char)
    (l : List (List Char × List Char)) {b : Int} (h : b ≤ 0) :
    emitFiles mk l b = ([], [], b) := by
  cases l with
  | nil => rfl
  | cons hd tl =>
    obtain ⟨n, c⟩ := hd
    exact emitFiles_cons_nonpos mk n c tl h

theorem emitFiles_sum (mk : List Char → List Char) :
    ∀ (l : List (List Char × List Char)) (b : Int),
    (sumLen (emitFiles mk l b).1 : Int) = b - (emitFiles mk l b).2.2 := by
  intro l
  induction l with
  | nil => intro b; simp [emitFiles_nil, sumLen]
  | cons hd tl ih =>
    intro b
    obtain ⟨n, c⟩ := hd
    by_cases h1 : b ≤ 0
    · simp [emitFiles_cons_nonpos mk n c tl h1, sumLen]
    · by_cases h2 : b - ((mk n).length : Int) ≤ 0
      · simp [emitFiles_cons_stop mk n c tl h1 h2, sumLen]
      · rw [emitFiles_cons_emit mk n c tl h1 h2]
        have := ih (b - ((mk n).length : Int) -
          ((c.take (b - ((mk n).length : Int)).toNat).length : Int))
        simp only [sumLen, List.map_cons, List.sum_cons, List.length_append] at this ⊢
        push_cast at this ⊢
        omega

theorem emitFiles_budget_nonneg (mk : List Char → List Char) :
    ∀ (l : List (List Char × List Char)) (b : Int), 0 ≤ b →
    0 ≤ (emitFiles mk l b).2.2 := by
  intro l
  induction l with
  | nil => intro b hb; simpa [emitFiles_nil] using hb
  | cons hd tl ih =>
    intro b hb
    obtain ⟨n, c⟩ := hd
    by_cases h1 : b ≤ 0
    · simpa [emitFiles_cons_nonpos mk n c tl h1] using hb
    · by_cases h2 : b - ((mk n).length : Int) ≤ 0
      · simpa [emitFiles_cons_stop mk n c tl h1 h2] using hb
      · rw [emitFiles_cons_emit mk n c tl h1 h2]
        apply ih
        have hav : (0 : Int) < b - ((mk n).length : Int) := by omega
        have hlen : ((c.take (b - ((mk n).length : Int)).toNat).length : Int)
            ≤ b - ((mk n).length : Int) := by
          have := List.length_take (b - ((mk n).length : Int)).toNat c
          have h3 : ((c.take (b - ((mk n).length : Int)).toNat).length : Nat)
              ≤ (b - ((mk n).length : Int)).toNat := by omega
          have h4 := Int.toNat_of_nonneg (le_of_lt hav)
          omega
        omega

theorem emitFiles_count (mk : List Char → List Char) :
    ∀ (l : List (List Char × List Char)) (b : Int),
    (emitFiles mk l b).1.length ≤ l.length := by
  intro l
  induction l with
  | nil => intro b; simp [emitFiles_nil]
  | cons hd tl ih =>
    intro b
    obtain ⟨n, c⟩ := hd
    by_cases h1 : b ≤ 0
    · simp [emitFiles_cons_nonpos mk n c tl h1]
    · by_cases h2 : b - ((mk n).length : Int) ≤ 0
      · simp [emitFiles_cons_stop mk n c tl h1 h2]
      · rw [emitFiles_cons_emit mk n c tl h1 h2]
        simpa using Nat.succ_le_succ (ih _)

theorem emitFiles_names_take (mk : List Char → List Char) :
    ∀ (l : List (List Char × List Char)) (b : Int),
    ∃ k, (emitFiles mk l b).2.1 = (l.map Prod.fst).take k := by
  intro l
  induction l with
  | nil => intro b; exact ⟨0, rfl⟩
  | cons hd tl ih =>
    intro b
    obtain ⟨n, c⟩ := hd
    by_cases h1 : b ≤ 0
    · exact ⟨0, by simp [emitFiles_cons_nonpos mk n c tl h1]⟩
    · by_cases h2 : b - ((mk n).length : Int) ≤ 0
      · exact ⟨0, by simp [emitFiles_cons_stop mk n c tl h1 h2]⟩
      · obtain ⟨k, hk⟩ := ih (b - ((mk n).length : Int) -
          ((c.take (b - ((mk n).length : Int)).toNat).length : Int))
        refine ⟨k + 1, ?_⟩
        rw [emitFiles_cons_emit mk n c tl h1 h2]
        simp only [List.map_cons, List.take_succ_cons, List.cons.injEq]
        exact ⟨trivial, hk⟩

/-- C2: for every RepoContent input (its manifest mapping `files`) and
every budget value reaching the manifest loop, the names emitted by
`build_context`'s manifest loop are a prefix of the priority-ordered list
of manifest files present in the input (`orderedManifest files`); hence
the omitted manifest files are exactly the remaining suffix of that list —
never a higher-priority file dropped while a lower-priority one is kept. -/
theorem manifest_omission_is_priority_suffix (budget : Int)
    (files : List (List Char × List Char)) :
    ∃ k, (emitFiles manifestHeader (orderedManifest files) budget).2.1 =
      ((orderedManifest files).map Prod.fst).take k :=
  emitFiles_names_take manifestHeader (orderedManifest files) budget

/-- C3: with budget B = 6000 (the spec scenario's configured budget; the
checked-in revision sets `MAX_CONTENT_CHARS = 12000`, and `build_context`
is `buildContextB MAX_CONTENT_CHARS`), a RepoContent holding only a
10,000-character `README.md`, no source samples and an empty directory
assembles to exactly the header `"\n--- README.md ---\n"` (19 characters)
followed by the first 6000 − 19 = 5981 characters of the README, and
nothing else. -/
theorem readme_truncation_scenario (content : List Char)
    (h : content.length = 10000) :
    buildContextB 6000 (RepoContent.mk [("README.md".toList, content)] [] []) =
      manifestHeader "README.md".toList ++ content.take 5981 ∧
    (content.take 5981).length = 5981 ∧
    (manifestHeader "README.md".toList).length = 19 := by
  refine ⟨rfl, ?_, rfl⟩
  simp [List.length_take, h]

/-- Witness for `readme_truncation_scenario` at a concrete 10,000-character
README content. -/
theorem readme_truncation_scenario_witness :
    (List.replicate 10000 'R').length = 10000 ∧
    (buildContextB 6000
        (RepoContent.mk [("README.md".toList, List.replicate 10000 'R')] [] []) =
      manifestHeader "README.md".toList ++ (List.replicate 10000 'R').take 5981 ∧
    ((List.replicate 10000 'R').take 5981).length = 5981 ∧
    (manifestHeader "README.md".toList).length = 19) :=
  ⟨by rw [List.length_replicate], readme_truncation_scenario (List.replicate 10000 'R')
    (by rw [List.length_replicate])⟩

/-- C7: branch resolution falls back to the literal `"main"` on every
metadata-query outcome that is a fetch failure or a non-success status
(and, being a total function, never raises from this step); a branch other
than `"main"` is returned only for a 200 response that actually declared
it as `default_branch`. -/
theorem resolve_branch_fallback :
    (∀ o : BranchOutcome,
      (∀ s db, o = BranchOutcome.response s db → s ≠ 200) →
      resolve_default_branch o = "main".toList) ∧
    (∀ o b, resolve_default_branch o = b → b ≠ "main".toList →
      ∃ db, o = BranchOutcome.response 200 (some db) ∧ b = db) := by
  constructor
  · intro o h
    cases o with
    | failure => rfl
    | response s db =>
      have hs : s ≠ 200 := h s db rfl
      simp [resolve_default_branch, hs]
  · intro o b hb hne
    cases o with
    | failure =>
      simp only [resolve_default_branch] at hb
      exact absurd hb.symm hne
    | response s db =>
      by_cases hs : s = 200
      · subst hs
        cases db with
        | none =>
          simp only [resolve_default_branch, if_pos rfl, Option.getD_none] at hb
          exact absurd hb.symm hne
        | some x =>
          simp only [resolve_default_branch, if_pos rfl, Option.getD_some] at hb
          exact ⟨x, rfl, hb.symm⟩
      · simp only [resolve_default_branch, if_neg hs] at hb
        exact absurd hb.symm hne

/-- Witness for `resolve_branch_fallback`: a 503 response falls back to
`"main"`. -/
theorem resolve_branch_fallback_witness :
    resolve_default_branch (BranchOutcome.response 503 (some "dev".toList)) =
      "main".toList :=
  resolve_branch_fallback.1 (BranchOutcome.response 503 (some "dev".toList))
    (fun s db h => by cases h; decide)

/-- C6: whenever the sampled RepoContent of a request has all three
collections empty, the handler answers 404 with the error envelope, and
the response does not depend on the completion-provider outcome (the
provider is never consulted). -/
theorem summarize_empty_repo_404 (url : List Char)
    (fetch : List Char → Option (List Char)) (b : BranchOutcome)
    (l : ListingOutcome) (neb neb' : NebOutcome) (pr : List Char × List Char)
    (hp : parse_github_url url = some pr)
    (h1 : (collect_repo_content fetch b l).files = [])
    (h2 : (collect_repo_content fetch b l).directory = [])
    (h3 : (collect_repo_content fetch b l).source_files = []) :
    summarize url fetch b l neb = HandlerResp.err 404 msg404 ∧
    summarize url fetch b l neb = summarize url fetch b l neb' := by
  have hmain : ∀ n : NebOutcome,
      summarize url fetch b l n = HandlerResp.err 404 msg404 := by
    intro n
    unfold summarize
    rw [hp]
    simp only [h1, h2, h3, List.isEmpty_nil, Bool.and_self, if_pos]
  exact ⟨hmain neb, (hmain neb).trans (hmain neb').symm⟩

/-- Witness for `summarize_empty_repo_404`: every fetch absent, metadata
queries failing. -/
theorem summarize_empty_repo_404_witness :
    summarize "https://github.com/a/b".toList (fun _ => none)
      BranchOutcome.failure ListingOutcome.failure NebOutcome.envError =
      HandlerResp.err 404 msg404 :=
  (summarize_empty_repo_404 "https://github.com/a/b".toList (fun _ => none)
    BranchOutcome.failure ListingOutcome.failure NebOutcome.envError
    (NebOutcome.ok JVal.jnull) ("a".toList, "b".toList) rfl rfl rfl rfl).1

/-- C8 (amended): for every provider response whose fence-stripped text
parses as a JSON object, the final extraction succeeds and each of the
three fields is the object's binding when present and the documented
default (`""`, `[]`, `""`) when absent; absent fields are not errors. -/
theorem extract_object_defaults (fields : List (List Char × JVal)) :
    ∃ r, extract_summary_result (JVal.jobj fields) = some r ∧
      (dictGet fields "summary".toList = none → r.summary = JVal.jstr []) ∧
      (∀ v, dictGet fields "summary".toList = some v → r.summary = v) ∧
      (dictGet fields "technologies".toList = none →
        r.technologies = JVal.jarr []) ∧
      (∀ v, dictGet fields "technologies".toList = some v →
        r.technologies = v) ∧
      (dictGet fields "structure".toList = none → r.struct = JVal.jstr []) ∧
      (∀ v, dictGet fields "structure".toList = some v → r.struct = v) := by
  refine ⟨_, rfl, ?_, ?_, ?_, ?_, ?_, ?_⟩
  · intro h
    show (dictGet fields "summary".toList).getD (JVal.jstr []) = JVal.jstr []
    rw [h]
    rfl
  · intro v h
    show (dictGet fields "summary".toList).getD (JVal.jstr []) = v
    rw [h]
    rfl
  · intro h
    show (dictGet fields "technologies".toList).getD (JVal.jarr []) = JVal.jarr []
    rw [h]
    rfl
  · intro v h
    show (dictGet fields "technologies".toList).getD (JVal.jarr []) = v
    rw [h]
    rfl
  · intro h
    show (dictGet fields "structure".toList).getD (JVal.jstr []) = JVal.jstr []
    rw [h]
    rfl
  · intro v h
    show (dictGet fields "structure".toList).getD (JVal.jstr []) = v
    rw [h]
    rfl

/-- Witness for `extract_object_defaults`: an object carrying only
`technologies`; the other two fields default. -/
theorem extract_object_defaults_witness :
    ∃ r, extract_summary_result (JVal.jobj [("technologies".toList,
        JVal.jarr [JVal.jstr "Go".toList])]) = some r ∧
      r.summary = JVal.jstr [] ∧
      r.technologies = JVal.jarr [JVal.jstr "Go".toList] ∧
      r.struct = JVal.jstr [] := by
  obtain ⟨r, h0, h1, _, _, h4, h5, _⟩ := extract_object_defaults
    [("technologies".toList, JVal.jarr [JVal.jstr "Go".toList])]
  exact ⟨r, h0, h1 rfl, h4 _ rfl, h5 rfl⟩

/-- C8 counterexample to the claim as stated: the provider text `[]` is
valid JSON, so its fence-stripped text parses — to the empty array — but
the handler then calls `.get` on a list (src/main.py lines 304-308),
raising `AttributeError`: the request crashes instead of returning a
SummaryResult.  The claim holds for JSON objects only. -/
theorem summarize_array_result_crash :
    summarize "https://github.com/a/b".toList
      (fun p => if p = "README.md".toList then some ['x'] else none)
      BranchOutcome.failure ListingOutcome.failure
      (NebOutcome.ok (JVal.jarr [])) = HandlerResp.crash := rfl

/-- C10: the `if content:` truthiness checks of `collect_repo_content`
make a 200 response with empty body indistinguishable from a missing
file, and a repository whose fetches all return nothing-or-empty with an
empty root listing yields the all-empty RepoContent (the handler's
not-found classification). -/
theorem empty_content_recorded_absent :
    (∀ (fetch : List Char → Option (List Char)) (b : BranchOutcome)
        (l : ListingOutcome),
      collect_repo_content fetch b l =
        collect_repo_content (treatEmptyAsAbsent fetch) b l) ∧
    (∀ (fetch : List Char → Option (List Char)) (b : BranchOutcome)
        (l : ListingOutcome),
      (∀ p, fetch p = none ∨ fetch p = some []) →
      resolve_entries l = [] →
      (collect_repo_content fetch b l).files = [] ∧
      (collect_repo_content fetch b l).source_files = [] ∧
      (collect_repo_content fetch b l).directory = []) := by
  constructor
  · intro fetch b l
    unfold collect_repo_content
    have h1 : (fun (n : List Char) => match fetch n with
        | some c => if c.isEmpty then none else some (n, c)
        | none => none) =
        (fun (n : List Char) => match treatEmptyAsAbsent fetch n with
        | some c => if c.isEmpty then none else some (n, c)
        | none => none) := by
      funext n
      unfold treatEmptyAsAbsent
      cases hf : fetch n with
      | none => rfl
      | some c =>
        cases c with
        | nil => rfl
        | cons x t => rfl
    have h2 : (fun (p : List Char) => match fetch p with
        | some c => if c.isEmpty then none
            else some (p, c.take MAX_SOURCE_FILE_CHARS)
        | none => none) =
        (fun (p : List Char) => match treatEmptyAsAbsent fetch p with
        | some c => if c.isEmpty then none
            else some (p, c.take MAX_SOURCE_FILE_CHARS)
        | none => none) := by
      funext p
      unfold treatEmptyAsAbsent
      cases hf : fetch p with
      | none => rfl
      | some c =>
        cases c with
        | nil => rfl
        | cons x t => rfl
    rw [h1, h2]
  · intro fetch b l hf hl
    refine ⟨?_, ?_, ?_⟩
    · apply List.filterMap_eq_nil_iff.mpr
      intro n _
      rcases hf n with h | h <;> simp [h]
    · apply List.filterMap_eq_nil_iff.mpr
      intro p _
      rcases hf p with h | h <;> simp [h]
    · unfold collect_repo_content fetch_repo_metadata
      rw [hl]
      rfl

/-- Witness for `empty_content_recorded_absent`: every fetch succeeds with
an empty body, root listing empty. -/
theorem empty_content_recorded_absent_witness :
    (collect_repo_content (fun _ => some []) BranchOutcome.failure
      ListingOutcome.failure).files = [] ∧
    (collect_repo_content (fun _ => some []) BranchOutcome.failure
      ListingOutcome.failure).source_files = [] ∧
    (collect_repo_content (fun _ => some []) BranchOutcome.failure
      ListingOutcome.failure).directory = [] :=
  empty_content_recorded_absent.2 (fun _ => some []) BranchOutcome.failure
    ListingOutcome.failure (fun _ => Or.inr rfl) rfl


/-- Success shape of `parse_github_url`: the returned owner is a nonempty
maximal non-`/` run, and the returned repo derives from a nonempty maximal
run of non-stop characters by the two suffix-stripping steps. -/
theorem parse_success_shape {url o r : List Char}
    (h : parse_github_url url = some (o, r)) :
    ∃ r2 r3 : List Char,
      o = r2.takeWhile (fun c => !(c == '/')) ∧
      o.isEmpty = false ∧
      (r3.takeWhile (fun c => !(urlStopChar c))).isEmpty = false ∧
      r = stripDotGit (rstripSlash (r3.takeWhile (fun c => !(urlStopChar c)))) := by
  simp only [parse_github_url] at h
  cases h0 : chompLit "http".toList (pyStrip url) with
  | none => rw [h0] at h; exact absurd h (by simp)
  | some r0 =>
    rw [h0] at h
    dsimp only at h
    cases h2 : chompLit "://github.com/".toList (chompOptS r0) with
    | none => rw [h2] at h; exact absurd h (by simp)
    | some r2 =>
      rw [h2] at h
      dsimp only at h
      split at h
      · exact absurd h (by simp)
      · cases h3 : chompLit "/".toList
            (r2.dropWhile (fun c => !(c == '/'))) with
        | none => rw [h3] at h; exact absurd h (by simp)
        | some r3 =>
          rw [h3] at h
          dsimp only at h
          split at h
          · exact absurd h (by simp)
          · rw [Option.some_inj, Prod.ext_iff] at h
            obtain ⟨ho, hr⟩ := h
            rename_i howner hrepo
            simp only at ho hr
            refine ⟨r2, r3, ho.symm, ?_, ?_, hr.symm⟩
            · rw [← ho]
              simpa using howner
            · simpa using hrepo

/-- C5 (amended): every successful parse returns a non-empty owner and a
repo containing no `/` at all — in particular no trailing slash.  (The
claim's further parts fail: see `parse_invariant_counterexample` — the
repo can be empty, and can retain a `.git` suffix.) -/
theorem parse_github_url_success_invariant (url o r : List Char)
    (h : parse_github_url url = some (o, r)) :
    o ≠ [] ∧ ∀ c ∈ r, c ≠ '/' := by
  obtain ⟨r2, r3, ho, hne, hre, hr⟩ := parse_success_shape h
  constructor
  · intro hnil
    rw [hnil] at hne
    simp at hne
  · intro c hc
    rw [hr] at hc
    have hc2 := mem_rstripSlash (mem_stripDotGit hc)
    have hp := List.mem_takeWhile_imp hc2
    intro hceq
    subst hceq
    exact absurd hp (by decide)

/-- Witness for `parse_github_url_success_invariant` at a concrete URL. -/
theorem parse_github_url_success_invariant_witness :
    "alice".toList ≠ [] ∧ ∀ c ∈ "bob".toList, c ≠ '/' :=
  parse_github_url_success_invariant "https://github.com/alice/bob".toList
    "alice".toList "bob".toList (by decide)

/-- C5 counterexample to the claim as stated: the URL
`https://github.com/a/.git` parses successfully with an empty repo field
(the segment `.git` loses its only four characters to the suffix strip),
and `https://github.com/a/b.git.git` parses to a repo that still ends in
`.git` (only one copy of the suffix is stripped). -/
theorem parse_invariant_counterexample :
    parse_github_url "https://github.com/a/.git".toList =
      some ("a".toList, []) ∧
    parse_github_url "https://github.com/a/b.git.git".toList =
      some ("a".toList, "b.git".toList) ∧
    endsWithDotGit "b.git".toList = true := by
  refine ⟨?_, ?_, ?_⟩ <;> decide

theorem rstripSlash_eq_self_of_forall {l : List Char}
    (h : ∀ c ∈ l, (c == '/') = false) : rstripSlash l = l := by
  unfold rstripSlash
  rw [dropWhile_eq_self_of_forall (fun c hc => h c (List.mem_reverse.mp hc))]
  exact List.reverse_reverse l

theorem stripDotGit_append_git (l : List Char) :
    stripDotGit (l ++ ".git".toList) = l := by
  have hend : endsWithDotGit (l ++ ".git".toList) = true := by
    unfold endsWithDotGit
    rw [List.reverse_append]
    exact isPrefixOf_app_extend _ (by decide)
  unfold stripDotGit
  rw [hend]
  have h4 : (l ++ ".git".toList).length - 4 = l.length := by simp
  simp only [if_pos rfl, h4]
  exact List.take_left l _

/-- C4 (amended): every input of the valid form
`https://github.com/OWNER/REPO` — optional `.git` suffix, then either
nothing or a continuation starting with `/`, `?` or `#` (trailing slash,
extra path segments, query string or fragment; taken whitespace-free, as
`.strip()` would otherwise merely trim it) — parses to exactly
`(OWNER, REPO)`.  Because the continuation after `/` is arbitrary, this
includes inputs with extra path segments, which are *not* of the spec's
stated form yet still succeed: failure is not guaranteed for all other
strings (see `parse_url_form_counterexample`). -/
theorem parse_github_url_valid_forms (owner repo gitOpt rest : List Char)
    (ho : owner ≠ []) (how : ∀ c ∈ owner, urlStopChar c = false)
    (hr : repo ≠ []) (hrw : ∀ c ∈ repo, urlStopChar c = false)
    (hg : gitOpt = [] ∨ gitOpt = ".git".toList)
    (hng : endsWithDotGit repo = false)
    (hrest : rest = [] ∨ ((∃ c t, rest = c :: t ∧ (c = '/' ∨ c = '?' ∨ c = '#')) ∧
      ∀ d ∈ rest, pyIsSpace d = false)) :
    parse_github_url ("https://github.com/".toList ++ owner ++ '/' ::
      (repo ++ gitOpt ++ rest)) = some (owner, repo) := by
  have hgchars : ∀ c ∈ gitOpt, urlStopChar c = false := by
    rcases hg with rfl | rfl
    · intro c hc; cases hc
    · decide
  have hmid : ∀ c ∈ repo ++ gitOpt, urlStopChar c = false := by
    intro c hc
    rcases List.mem_append.mp hc with h | h
    · exact hrw c h
    · exact hgchars c h
  have hrestns : ∀ d ∈ rest, pyIsSpace d = false := by
    rcases hrest with rfl | ⟨_, hns⟩
    · intro d hd; cases hd
    · exact hns
  have hRns : ∀ c ∈ repo ++ gitOpt ++ rest, pyIsSpace c = false := by
    intro c hc
    rcases List.mem_append.mp hc with h | h
    · have := hmid c h
      unfold urlStopChar at this
      simp only [Bool.or_eq_false_iff] at this
      exact this.2
    · exact hrestns c h
  have hRne : repo ++ gitOpt ++ rest ≠ [] := by
    intro hcon
    rcases List.append_eq_nil.mp hcon with ⟨h1, _⟩
    rcases List.append_eq_nil.mp h1 with ⟨h2, _⟩
    exact hr h2
  -- Step 1: strip() is the identity here.
  have hstrip : pyStrip ("https://github.com/".toList ++ owner ++ '/' ::
      (repo ++ gitOpt ++ rest)) = "https://github.com/".toList ++ owner ++ '/' ::
      (repo ++ gitOpt ++ rest) := by
    unfold pyStrip lstripWS
    have hassoc : "https://github.com/".toList ++ owner ++ '/' ::
        (repo ++ gitOpt ++ rest) =
        "https://github.com/".toList ++ (owner ++ '/' ::
          (repo ++ gitOpt ++ rest)) := by
      simp [List.append_assoc]
    rw [hassoc, dropWhile_append_of_ne_nil _ (by decide),
      show "https://github.com/".toList.dropWhile pyIsSpace =
        "https://github.com/".toList from by decide]
    have hassoc2 : "https://github.com/".toList ++ (owner ++ '/' ::
        (repo ++ gitOpt ++ rest)) =
        ("https://github.com/".toList ++ owner ++ ['/']) ++
          (repo ++ gitOpt ++ rest) := by
      simp [List.append_assoc]
    rw [hassoc2, rstripWS_append (by rw [rstripWS_eq_self_of_forall hRns]; exact hRne),
      rstripWS_eq_self_of_forall hRns]
  -- Step 2: run the parser.
  simp only [parse_github_url]
  rw [hstrip]
  have hA : "https://github.com/".toList ++ owner ++ '/' ::
      (repo ++ gitOpt ++ rest) =
      "http".toList ++ ('s' :: ("://github.com/".toList ++
        (owner ++ '/' :: (repo ++ gitOpt ++ rest)))) := rfl
  rw [hA, chompLit_append]
  dsimp only
  rw [chompOptS_s, chompLit_append]
  dsimp only
  have how2 : ∀ c ∈ owner, (!(c == '/')) = true := by
    intro c hc
    have hs := how c hc
    unfold urlStopChar at hs
    simp only [Bool.or_eq_false_iff] at hs
    rw [hs.1.1.1]
    rfl
  have hO := @takeWhile_app_stop (fun c => !(c == '/')) owner '/'
    (repo ++ gitOpt ++ rest) how2 (by decide)
  rw [hO.1, hO.2]
  have howe : owner.isEmpty = false := by
    cases owner with
    | nil => exact absurd rfl ho
    | cons a t => rfl
  rw [if_neg (by simp [howe])]
  have hslash2 : chompLit "/".toList ('/' :: (repo ++ gitOpt ++ rest)) =
      some (repo ++ gitOpt ++ rest) :=
    chompLit_append "/".toList (repo ++ gitOpt ++ rest)
  rw [hslash2]
  dsimp only
  have hpass : ∀ x ∈ repo ++ gitOpt, (!(urlStopChar x)) = true := by
    intro x hx
    rw [hmid x hx]
    rfl
  have hrepo0 : List.takeWhile (fun c => !(urlStopChar c))
      (repo ++ gitOpt ++ rest) = repo ++ gitOpt := by
    rcases hrest with rfl | ⟨⟨c, t, rfl, hc⟩, _⟩
    · rw [show repo ++ gitOpt ++ ([] : List Char) = repo ++ gitOpt by simp]
      exact takeWhile_eq_self_of_forall hpass
    · rw [show repo ++ gitOpt ++ (c :: t) = (repo ++ gitOpt) ++ (c :: t) from
        by simp [List.append_assoc]]
      have hstop : (!(urlStopChar c)) = false := by
        rcases hc with rfl | rfl | rfl <;> decide
      exact (@takeWhile_app_stop (fun c => !(urlStopChar c))
        (repo ++ gitOpt) c t hpass hstop).1
  rw [hrepo0]
  have hmide : (repo ++ gitOpt).isEmpty = false := by
    cases repo with
    | nil => exact absurd rfl hr
    | cons a t => rfl
  rw [if_neg (by simp [hmide])]
  have hnoslash : rstripSlash (repo ++ gitOpt) = repo ++ gitOpt := by
    apply rstripSlash_eq_self_of_forall
    intro c hc
    have hs := hmid c hc
    unfold urlStopChar at hs
    simp only [Bool.or_eq_false_iff] at hs
    exact hs.1.1.1
  rw [hnoslash]
  rcases hg with rfl | rfl
  · rw [List.append_nil]
    unfold stripDotGit
    rw [hng]
    rfl
  · rw [stripDotGit_append_git]

/-- Witness for `parse_github_url_valid_forms`: owner `alice`, repo `bob`,
a `.git` suffix and a query string. -/
theorem parse_github_url_valid_forms_witness :
    parse_github_url ("https://github.com/".toList ++ "alice".toList ++ '/' ::
      ("bob".toList ++ ".git".toList ++ "?x=1".toList)) =
      some ("alice".toList, "bob".toList) :=
  parse_github_url_valid_forms "alice".toList "bob".toList ".git".toList
    "?x=1".toList (by decide) (by decide) (by decide) (by decide)
    (Or.inr rfl) (by decide)
    (Or.inr ⟨⟨'?', "x=1".toList, rfl, Or.inr (Or.inl rfl)⟩, by decide⟩)

/-- C4 counterexample to the claim as stated: the input
`https://github.com/alice/bob/more` is not of the spec's valid form (what
follows the repo segment is an extra path segment, not a trailing slash,
query string or fragment), yet the anchored, non-full `re.match` accepts
it and the parser returns `("alice", "bob")` instead of failing with
`InvalidInput`. -/
theorem parse_url_form_counterexample :
    specUrlForm "https://github.com/alice/bob/more".toList = false ∧
    parse_github_url "https://github.com/alice/bob/more".toList =
      some ("alice".toList, "bob".toList) := by
  exact ⟨by decide, by decide⟩

/-- True when the text contains the triple-backtick fence marker anywhere
(the "code-fence markers" of the spec's idempotence property). -/
def hasFence : List Char → Bool
  | [] => false
  | c :: t => fence3.isPrefixOf (c :: t) || hasFence t

theorem hasFence_dropWhile (p : Char → Bool) {l : List Char}
    (h : hasFence l = false) : hasFence (l.dropWhile p) = false := by
  induction l with
  | nil => simpa using h
  | cons c t ih =>
    simp only [hasFence, Bool.or_eq_false_iff] at h
    rw [List.dropWhile_cons]
    by_cases hp : p c = true
    · rw [if_pos hp]
      exact ih h.2
    · rw [if_neg hp]
      simp [hasFence, h.1, h.2]

theorem hasFence_not_isPrefixOf {l : List Char} (h : hasFence l = false) :
    fence3.isPrefixOf l = false := by
  cases l with
  | nil => decide
  | cons c t =>
    simp only [hasFence, Bool.or_eq_false_iff] at h
    exact h.1

theorem hasFence_append_isPrefixOf {v : List Char} (u : List Char)
    (hv : fence3.isPrefixOf v = true) : hasFence (u ++ v) = true := by
  induction u with
  | nil =>
    cases v with
    | nil => exact absurd hv (by decide)
    | cons c t => simp [hasFence, hv]
  | cons a u ih => simp [hasFence, ih]

theorem hasFence_append_left {a b : List Char} (h : hasFence (a ++ b) = false) :
    hasFence a = false := by
  induction a with
  | nil => rfl
  | cons c t ih =>
    simp only [List.cons_append, hasFence, Bool.or_eq_false_iff] at h
    have h2 := ih h.2
    simp only [hasFence, Bool.or_eq_false_iff]
    refine ⟨?_, h2⟩
    by_contra hc
    have hc' : fence3.isPrefixOf (c :: t) = true := by
      revert hc
      cases fence3.isPrefixOf (c :: t) <;> simp
    have hext := isPrefixOf_app_extend b hc'
    rw [List.cons_append] at hext
    simp only [List.append_eq] at h
    rw [hext] at h
    exact absurd h.1 (by decide)

theorem hasFence_rstripWS {l : List Char} (h : hasFence l = false) :
    hasFence (rstripWS l) = false := by
  obtain ⟨w, hw⟩ := rstripWS_decomp l
  rw [hw] at h
  exact hasFence_append_left h

theorem hasFence_pyStrip {l : List Char} (h : hasFence l = false) :
    hasFence (pyStrip l) = false :=
  hasFence_rstripWS (hasFence_dropWhile pyIsSpace h)

theorem stripFenceOpen_id {t : List Char} (h : hasFence t = false) :
    stripFenceOpen t = t := by
  unfold stripFenceOpen
  simp [hasFence_not_isPrefixOf h]

theorem stripFenceClose_id {t : List Char} (h : hasFence t = false) :
    stripFenceClose t = t := by
  have h1 : fence3.isPrefixOf t.reverse = false := by
    by_contra hc
    have hc' : fence3.isPrefixOf t.reverse = true := by
      revert hc
      cases fence3.isPrefixOf t.reverse <;> simp
    obtain ⟨w, hw⟩ := (isPrefixOf_eq_iff _ _).mp hc'
    have ht : t = w.reverse ++ fence3 := by
      have hr := congrArg List.reverse hw
      rw [List.reverse_reverse, List.reverse_append] at hr
      rw [hr]
      rw [show fence3.reverse = fence3 from by decide]
    rw [ht] at h
    have htrue := hasFence_append_isPrefixOf w.reverse
      (show fence3.isPrefixOf fence3 = true from by decide)
    exact absurd (htrue.symm.trans h) (by decide)
  have h2 : ('\n' :: fence3).isPrefixOf t.reverse = false := by
    by_contra hc
    have hc' : ('\n' :: fence3).isPrefixOf t.reverse = true := by
      revert hc
      cases ('\n' :: fence3).isPrefixOf t.reverse <;> simp
    obtain ⟨w, hw⟩ := (isPrefixOf_eq_iff _ _).mp hc'
    have ht : t = w.reverse ++ (fence3 ++ ['\n']) := by
      have hr := congrArg List.reverse hw
      rw [List.reverse_reverse, List.reverse_append] at hr
      rw [hr]
      rw [show ('\n' :: fence3).reverse = fence3 ++ ['\n'] from by decide]
    rw [ht] at h
    have htrue := hasFence_append_isPrefixOf w.reverse
      (isPrefixOf_app_extend ['\n']
        (show fence3.isPrefixOf fence3 = true from by decide))
    exact absurd (htrue.symm.trans h) (by decide)
  unfold stripFenceClose
  simp [h1, h2]

theorem unwrap_response_clean {s : List Char} (h : hasFence s = false) :
    unwrap_response s = pyStrip s := by
  unfold unwrap_response
  rw [stripFenceOpen_id (hasFence_pyStrip h), stripFenceClose_id (hasFence_pyStrip h)]

theorem stripFenceClose_tail (ls : List Char) :
    stripFenceClose (ls ++ "\n```".toList) = rstripWS ls := by
  unfold stripFenceClose
  have hrev : (ls ++ "\n```".toList).reverse = fence3 ++ ('\n' :: ls.reverse) := by
    rw [List.reverse_append]
    rfl
  rw [hrev]
  have hpre : fence3.isPrefixOf (fence3 ++ ('\n' :: ls.reverse)) = true :=
    isPrefixOf_app_extend _ (by decide)
  rw [if_pos hpre]
  have hdrop : (fence3 ++ ('\n' :: ls.reverse)).drop 3 = '\n' :: ls.reverse :=
    List.drop_left fence3 ('\n' :: ls.reverse)
  rw [hdrop, List.dropWhile_cons, if_pos (by decide)]
  rfl

theorem stripClose_of_dropWhile (s : List Char) :
    stripFenceClose ((s ++ "\n```".toList).dropWhile pyIsSpace) = pyStrip s := by
  by_cases hnil : s.dropWhile pyIsSpace = []
  · rw [dropWhile_append_of_nil _ hnil,
      show "\n```".toList.dropWhile pyIsSpace = fence3 from by decide,
      show stripFenceClose fence3 = [] from by decide]
    unfold pyStrip lstripWS
    rw [hnil]
    rfl
  · rw [dropWhile_append_of_ne_nil _ hnil, stripFenceClose_tail]
    rfl

theorem pyStrip_fence_wrapped (A s : List Char)
    (hA1 : A.dropWhile pyIsSpace = A) (hAne : A ≠ []) :
    pyStrip (A ++ (s ++ "\n```".toList)) = A ++ (s ++ "\n```".toList) := by
  unfold pyStrip lstripWS
  rw [dropWhile_append_of_ne_nil _ (by rw [hA1]; exact hAne), hA1]
  have hT : rstripWS "\n```".toList = "\n```".toList := by decide
  have hTne : ("\n```".toList : List Char) ≠ [] := by decide
  have hsT : rstripWS (s ++ "\n```".toList) = s ++ "\n```".toList := by
    rw [rstripWS_append (by rw [hT]; exact hTne), hT]
  have hsTne : s ++ "\n```".toList ≠ [] := by
    intro hcon
    exact hTne (List.append_eq_nil.mp hcon).2
  rw [rstripWS_append (by rw [hsT]; exact hsTne), hsT]

theorem stripFenceOpen_json (s : List Char) :
    stripFenceOpen ("```json\n".toList ++ (s ++ "\n```".toList)) =
      (s ++ "\n```".toList).dropWhile pyIsSpace := by
  unfold stripFenceOpen
  rw [if_pos (isPrefixOf_app_extend _
    (show fence3.isPrefixOf "```json\n".toList = true from by decide))]
  have hd3 : ("```json\n".toList ++ (s ++ "\n```".toList)).drop 3 =
      "json\n".toList ++ (s ++ "\n```".toList) :=
    List.drop_left "```".toList ("json\n".toList ++ (s ++ "\n```".toList))
  rw [hd3]
  rw [if_pos (isPrefixOf_app_extend _
    (show "json".toList.isPrefixOf "json\n".toList = true from by decide))]
  have hd4 : ("json\n".toList ++ (s ++ "\n```".toList)).drop 4 =
      '\n' :: (s ++ "\n```".toList) :=
    List.drop_left "json".toList ('\n' :: (s ++ "\n```".toList))
  rw [hd4, List.dropWhile_cons, if_pos (by decide)]

theorem stripFenceOpen_plain (s : List Char) :
    stripFenceOpen ("```\n".toList ++ (s ++ "\n```".toList)) =
      (s ++ "\n```".toList).dropWhile pyIsSpace := by
  unfold stripFenceOpen
  rw [if_pos (isPrefixOf_app_extend _
    (show fence3.isPrefixOf "```\n".toList = true from by decide))]
  have hd3 : ("```\n".toList ++ (s ++ "\n```".toList)).drop 3 =
      '\n' :: (s ++ "\n```".toList) :=
    List.drop_left "```".toList ('\n' :: (s ++ "\n```".toList))
  rw [hd3]
  have hj : "json".toList.isPrefixOf ('\n' :: (s ++ "\n```".toList)) = false := rfl
  rw [if_neg (by simp [hj])]
  rw [List.dropWhile_cons, if_pos (by decide)]

/-- C9: for every text `s` containing no code-fence marker, the Summary
Requester's response-unwrapping logic (`strip()` plus the two fence
substitutions, the text handed to `json.loads`) produces the same string
— hence the same parsed object — whether applied to `s` itself or to `s`
wrapped in ```` ```json ````/```` ``` ```` fences. -/
theorem fence_unwrap_agreement (s : List Char) (h : hasFence s = false) :
    unwrap_response ("```json\n".toList ++ (s ++ "\n```".toList)) =
      unwrap_response s ∧
    unwrap_response ("```\n".toList ++ (s ++ "\n```".toList)) =
      unwrap_response s := by
  have hclean : unwrap_response s = pyStrip s := unwrap_response_clean h
  constructor
  · rw [hclean]
    unfold unwrap_response
    rw [pyStrip_fence_wrapped "```json\n".toList s (by decide) (by decide),
      stripFenceOpen_json, stripClose_of_dropWhile]
  · rw [hclean]
    unfold unwrap_response
    rw [pyStrip_fence_wrapped "```\n".toList s (by decide) (by decide),
      stripFenceOpen_plain, stripClose_of_dropWhile]

/-- Witness for `fence_unwrap_agreement` at the spec scenario's JSON
payload. -/
theorem fence_unwrap_agreement_witness :
    hasFence "\x7b\"summary\":\"x\"\x7d".toList = false ∧
    (unwrap_response ("```json\n".toList ++
        ("\x7b\"summary\":\"x\"\x7d".toList ++ "\n```".toList)) =
      unwrap_response "\x7b\"summary\":\"x\"\x7d".toList ∧
    unwrap_response ("```\n".toList ++
        ("\x7b\"summary\":\"x\"\x7d".toList ++ "\n```".toList)) =
      unwrap_response "\x7b\"summary\":\"x\"\x7d".toList) :=
  ⟨by decide, fence_unwrap_agreement "\x7b\"summary\":\"x\"\x7d".toList (by decide)⟩

theorem buildContextB_dir_nil {budget : Int} {data : RepoContent}
    (h : data.directory = []) :
    buildContextB budget data = pyJoin ['\n']
      ((emitFiles manifestHeader (orderedManifest data.files) budget).1 ++
        (emitFiles sourceHeader data.source_files
          (emitFiles manifestHeader (orderedManifest data.files) budget).2.2).1) := by
  unfold buildContextB
  rw [h]
  rfl

theorem buildContextB_dir_cons {budget : Int} {data : RepoContent}
    (h : data.directory.isEmpty = false) :
    buildContextB budget data = pyJoin ['\n']
      (dirBlock data :: ((emitFiles manifestHeader (orderedManifest data.files)
          (budget - ((dirBlock data).length : Int))).1 ++
        (emitFiles sourceHeader data.source_files
          (emitFiles manifestHeader (orderedManifest data.files)
            (budget - ((dirBlock data).length : Int))).2.2).1)) := by
  unfold buildContextB
  rw [h]
  rfl

/-- C1 (amended): the budget accounting of `build_context` never charges
the newline separators of the final `"\n".join(parts)`, one per part
beyond the first.  With `B = MAX_CONTENT_CHARS` the output length is
bounded by `B` plus the directory block when the directory is non-empty
(the at most 12 separators are absorbed by that block's ≥ 24 characters),
and by `B + 11` — not `B` — when the directory is empty (at most 10
manifest parts and 2 source parts, so at most 11 uncounted separators).
The original claim's empty-directory bound `B` fails: see
`build_context_overrun_counterexample`. -/
theorem build_context_length_bound (data : RepoContent)
    (hs : data.source_files.length ≤ 2) :
    (data.directory = [] →
      (build_context data).length ≤ MAX_CONTENT_CHARS.toNat + 11) ∧
    (data.directory ≠ [] →
      (build_context data).length ≤
        MAX_CONTENT_CHARS.toNat + (dirBlock data).length) := by
  have hMC : MAX_CONTENT_CHARS = (12000 : Int) := rfl
  have hMCn : MAX_CONTENT_CHARS.toNat = 12000 := rfl
  have hOM : (orderedManifest data.files).length ≤ 10 := by
    have h1 := List.length_filterMap_le
      (fun n => (data.files.lookup n).map (fun c => (n, c))) PRIORITY_FILES
    have h2 : PRIORITY_FILES.length = 10 := rfl
    unfold orderedManifest
    omega
  constructor
  · intro hdir
    rw [build_context, buildContextB_dir_nil hdir]
    have hm := emitFiles_sum manifestHeader (orderedManifest data.files)
      MAX_CONTENT_CHARS
    have hmb := emitFiles_budget_nonneg manifestHeader
      (orderedManifest data.files) MAX_CONTENT_CHARS (by rw [hMC]; omega)
    have hsm := emitFiles_sum sourceHeader data.source_files
      (emitFiles manifestHeader (orderedManifest data.files) MAX_CONTENT_CHARS).2.2
    have hsb := emitFiles_budget_nonneg sourceHeader data.source_files
      (emitFiles manifestHeader (orderedManifest data.files) MAX_CONTENT_CHARS).2.2
      hmb
    have hcm := emitFiles_count manifestHeader (orderedManifest data.files)
      MAX_CONTENT_CHARS
    have hcs := emitFiles_count sourceHeader data.source_files
      (emitFiles manifestHeader (orderedManifest data.files) MAX_CONTENT_CHARS).2.2
    have hjoin := pyJoin_newline_length
      ((emitFiles manifestHeader (orderedManifest data.files)
          MAX_CONTENT_CHARS).1 ++
        (emitFiles sourceHeader data.source_files
          (emitFiles manifestHeader (orderedManifest data.files)
            MAX_CONTENT_CHARS).2.2).1)
    rw [sumLen_append, List.length_append] at hjoin
    omega
  · intro hdir
    have hdirIsEmpty : data.directory.isEmpty = false := by
      cases hd : data.directory with
      | nil => exact absurd hd hdir
      | cons a t => rfl
    rw [build_context, buildContextB_dir_cons hdirIsEmpty]
    have hD : 24 ≤ (dirBlock data).length := by
      unfold dirBlock
      rw [List.length_append]
      have : ("Root directory entries:\n".toList).length = 24 := rfl
      omega
    by_cases hb1 : MAX_CONTENT_CHARS - ((dirBlock data).length : Int) ≤ 0
    · rw [emitFiles_nonpos manifestHeader (orderedManifest data.files) hb1]
      rw [show (([], [], MAX_CONTENT_CHARS - ((dirBlock data).length : Int)) :
          List (List Char) × List (List Char) × Int).2.2 =
          MAX_CONTENT_CHARS - ((dirBlock data).length : Int) from rfl]
      rw [emitFiles_nonpos sourceHeader data.source_files hb1]
      rw [show (([], [], MAX_CONTENT_CHARS - ((dirBlock data).length : Int)) :
          List (List Char) × List (List Char) × Int).1 = [] from rfl]
      rw [show ([] : List (List Char)) ++ [] = [] from rfl]
      rw [show pyJoin ['\n'] [dirBlock data] = dirBlock data from rfl]
      omega
    · have hb1' : (0 : Int) ≤ MAX_CONTENT_CHARS - ((dirBlock data).length : Int) := by
        omega
      have hm := emitFiles_sum manifestHeader (orderedManifest data.files)
        (MAX_CONTENT_CHARS - ((dirBlock data).length : Int))
      have hmb := emitFiles_budget_nonneg manifestHeader
        (orderedManifest data.files)
        (MAX_CONTENT_CHARS - ((dirBlock data).length : Int)) hb1'
      have hsm := emitFiles_sum sourceHeader data.source_files
        (emitFiles manifestHeader (orderedManifest data.files)
          (MAX_CONTENT_CHARS - ((dirBlock data).length : Int))).2.2
      have hsb := emitFiles_budget_nonneg sourceHeader data.source_files
        (emitFiles manifestHeader (orderedManifest data.files)
          (MAX_CONTENT_CHARS - ((dirBlock data).length : Int))).2.2 hmb
      have hcm := emitFiles_count manifestHeader (orderedManifest data.files)
        (MAX_CONTENT_CHARS - ((dirBlock data).length : Int))
      have hcs := emitFiles_count sourceHeader data.source_files
        (emitFiles manifestHeader (orderedManifest data.files)
          (MAX_CONTENT_CHARS - ((dirBlock data).length : Int))).2.2
      have hjoin := pyJoin_newline_length
        (dirBlock data :: ((emitFiles manifestHeader (orderedManifest data.files)
            (MAX_CONTENT_CHARS - ((dirBlock data).length : Int))).1 ++
          (emitFiles sourceHeader data.source_files
            (emitFiles manifestHeader (orderedManifest data.files)
              (MAX_CONTENT_CHARS - ((dirBlock data).length : Int))).2.2).1))
      have hsum : sumLen (dirBlock data ::
          ((emitFiles manifestHeader (orderedManifest data.files)
            (MAX_CONTENT_CHARS - ((dirBlock data).length : Int))).1 ++
          (emitFiles sourceHeader data.source_files
            (emitFiles manifestHeader (orderedManifest data.files)
              (MAX_CONTENT_CHARS - ((dirBlock data).length : Int))).2.2).1)) =
          (dirBlock data).length +
          (sumLen (emitFiles manifestHeader (orderedManifest data.files)
            (MAX_CONTENT_CHARS - ((dirBlock data).length : Int))).1 +
          sumLen (emitFiles sourceHeader data.source_files
            (emitFiles manifestHeader (orderedManifest data.files)
              (MAX_CONTENT_CHARS - ((dirBlock data).length : Int))).2.2).1) := by
        simp [sumLen]
      rw [hsum, List.length_cons, List.length_append] at hjoin
      omega

/-- Witness for `build_context_length_bound` at the empty RepoContent. -/
theorem build_context_length_bound_witness :
    (([] : List (List Char × List Char)).length ≤ 2) ∧
    (build_context (RepoContent.mk [] [] [])).length ≤
      MAX_CONTENT_CHARS.toNat + 11 :=
  ⟨by decide, (build_context_length_bound (RepoContent.mk [] [] [])
    (by decide)).1 rfl⟩

/-- The RepoContent refuting the claimed exact budget bound: an empty
directory, no source samples, a one-character `README.md` and a
`README.rst` long enough to exhaust the remaining budget. -/
def overrunData : RepoContent :=
  RepoContent.mk [("README.md".toList, ['x']),
    ("README.rst".toList, List.replicate 11960 'a')] [] []

theorem overrun_first_snippet :
    (['x'] : List Char).take ((MAX_CONTENT_CHARS -
      ((manifestHeader "README.md".toList).length : Int)).toNat) = ['x'] := rfl

theorem overrun_budget_one :
    MAX_CONTENT_CHARS - ((manifestHeader "README.md".toList).length : Int) -
      (((['x'] : List Char)).length : Int) = (11980 : Int) := rfl

theorem overrun_second_snippet :
    (List.replicate 11960 'a').take (((11980 : Int) -
      ((manifestHeader "README.rst".toList).length : Int)).toNat) =
      List.replicate 11960 'a' := by
  rw [show (((11980 : Int) -
    ((manifestHeader "README.rst".toList).length : Int)).toNat) = 11960 from rfl]
  rw [List.take_replicate, Nat.min_self]

theorem overrun_budget_two :
    (11980 : Int) - ((manifestHeader "README.rst".toList).length : Int) -
      ((List.replicate 11960 'a').length : Int) = 0 := by
  rw [show ((manifestHeader "README.rst".toList).length : Int) = 20 from rfl]
  rw [List.length_replicate]
  decide

/-- C1 counterexample to the claim as stated (the directory-empty part):
`build_context` on `overrunData` — empty directory, no source samples —
returns 12001 characters against the configured budget
`MAX_CONTENT_CHARS = 12000`: the join separator between the two manifest
parts is never charged to the budget. -/
theorem build_context_overrun_counterexample :
    overrunData.directory = [] ∧ overrunData.source_files.length ≤ 2 ∧
    (build_context overrunData).length = 12001 ∧
    MAX_CONTENT_CHARS.toNat < 12001 := by
  refine ⟨rfl, by decide, ?_, by decide⟩
  rw [build_context, buildContextB_dir_nil rfl]
  rw [show orderedManifest overrunData.files =
    [("README.md".toList, ['x']),
      ("README.rst".toList, List.replicate 11960 'a')] from rfl]
  rw [emitFiles_cons_emit manifestHeader "README.md".toList ['x']
    [("README.rst".toList, List.replicate 11960 'a')] (by decide) (by decide)]
  rw [overrun_first_snippet, overrun_budget_one]
  rw [emitFiles_cons_emit manifestHeader "README.rst".toList
    (List.replicate 11960 'a') [] (by decide) (by decide)]
  rw [overrun_second_snippet, overrun_budget_two]
  rw [emitFiles_nil]
  rw [show (emitFiles sourceHeader overrunData.source_files
    (([], [], (0 : Int)) : List (List Char) × List (List Char) × Int).2.2).1 =
    [] from rfl]
  rw [List.append_nil]
  rw [show pyJoin ['\n'] [manifestHeader "README.md".toList ++ ['x'],
    manifestHeader "README.rst".toList ++ List.replicate 11960 'a'] =
    (manifestHeader "README.md".toList ++ ['x']) ++ ['\n'] ++
      (manifestHeader "README.rst".toList ++ List.replicate 11960 'a') from rfl]
  have l1 : (manifestHeader "README.md".toList ++ ['x']).length = 20 := rfl
  have l2 : (manifestHeader "README.rst".toList ++
      List.replicate 11960 'a').length = 11980 := by
    rw [List.length_append, List.length_replicate,
      show (manifestHeader "README.rst".toList).length = 20 from rfl]
  rw [List.length_append, List.length_append, l1, l2]
  rfl
